import Mathlib

/-!
Shallow embedding of the embedded_font_generator pipeline
(src/lib.rs, src/imagedecode.rs, src/error.rs).

Machine integers: Rust `usize` is modelled as `Nat` with explicit wrapping
modulo `2 ^ 64`; `u8` values are `Nat` with explicit `% 256` where the source
wraps.  The `F32` sample-depth arm of the decoded-buffer enum is outside the
embedding (floating point); no claim touches it.  The PNG bitstream decoder is
an external collaborator: its output (width, height, color-space tag, sample
buffer) is modelled by the `DecodedImage` structure.
-/

/-- Size of the usize domain, modelling a 64 bit target. -/
def U64 : Nat := 2 ^ 64

/-- Reduce a value into the usize domain (wrapping semantics). -/
def wrap (n : Nat) : Nat := n % U64

/-- Reduce a value into the u8 domain (wrapping semantics). -/
def wrap8 (n : Nat) : Nat := n % 256

/-- Model of usize wrapping_sub for operands below `U64`. -/
def wrapping_sub (a b : Nat) : Nat := (a + U64 - b) % U64

/-- Model of usize saturating_mul. -/
def saturating_mul (a b : Nat) : Nat := min (a * b) (U64 - 1)

/-- Model of usize saturating_add. -/
def saturating_add (a b : Nat) : Nat := min (a + b) (U64 - 1)

/-- Model of checked_div: division that signals none for a zero divisor. -/
def checked_div (a b : Nat) : Option Nat := if b = 0 then none else some (a / b)

/-- Model of checked_sub: subtraction that signals none on underflow. -/
def checked_sub (a b : Nat) : Option Nat := if b ≤ a then some (a - b) else none

/-- The mode in which the font should be generated (src/lib.rs FontMode). -/
inductive FontMode where
  /-- The image is read line by line, no alignment. -/
  | Row : FontMode
  /-- Works in columns of 8, aligned by 8. -/
  | ByteColumn : FontMode
deriving DecidableEq

/-- In what direction the bits inside a byte flow (src/lib.rs BitFlow). -/
inductive BitFlow where
  /-- Most significant bit to least significant bit. -/
  | Mtl : BitFlow
  /-- Least significant bit to most significant bit. -/
  | Ltm : BitFlow
deriving DecidableEq

/-- Color-space tag reported by the external zune png decoder collaborator. -/
inductive ColorSpace where
  | RGB | RGBA | YCbCr | Luma | LumaA | YCCK | CMYK | Unknown | BGR | BGRA | ARGB
deriving DecidableEq

/-- Enumeration of all supported color spaces (src/imagedecode.rs). -/
inductive SupportedColorSpace where
  /-- RGB color space, alpha will be set to 255. -/
  | Rgb : SupportedColorSpace
  /-- RGBA color space, can be used 1:1. -/
  | Rgba : SupportedColorSpace
  /-- Grayscale, all color components set to the grayscale value, alpha 255. -/
  | Luma : SupportedColorSpace
  /-- Grayscale with transparency. -/
  | LumaA : SupportedColorSpace
  /-- Same as RGB but blue and red are swapped. -/
  | Bgr : SupportedColorSpace
  /-- Same as RGBA but blue and red are swapped. -/
  | Bgra : SupportedColorSpace
deriving DecidableEq

/-- Create a supported color space from a zune color space tag. -/
def SupportedColorSpace.new (space : ColorSpace) : Option SupportedColorSpace :=
  match space with
  | ColorSpace.RGB => some SupportedColorSpace.Rgb
  | ColorSpace.RGBA => some SupportedColorSpace.Rgba
  | ColorSpace.Luma => some SupportedColorSpace.Luma
  | ColorSpace.LumaA => some SupportedColorSpace.LumaA
  | ColorSpace.BGR => some SupportedColorSpace.Bgr
  | ColorSpace.BGRA => some SupportedColorSpace.Bgra
  | _ => none

/-- Number of components per pixel, as reported by the zune collaborator. -/
def ColorSpace.num_components (space : ColorSpace) : Nat :=
  match space with
  | ColorSpace.RGB | ColorSpace.YCbCr | ColorSpace.BGR => 3
  | ColorSpace.RGBA | ColorSpace.YCCK | ColorSpace.CMYK
  | ColorSpace.BGRA | ColorSpace.ARGB => 4
  | ColorSpace.Luma => 1
  | ColorSpace.LumaA => 2
  | ColorSpace.Unknown => 0

/-- Whether the zune color space carries an alpha channel. -/
def ColorSpace.has_alpha (space : ColorSpace) : Bool :=
  match space with
  | ColorSpace.RGBA | ColorSpace.LumaA | ColorSpace.BGRA | ColorSpace.ARGB => true
  | _ => false

/-- Number of components (values per pixel) of a supported color space. -/
def SupportedColorSpace.num_components (s : SupportedColorSpace) : Nat :=
  match s with
  | SupportedColorSpace.Rgb => ColorSpace.RGB.num_components
  | SupportedColorSpace.Rgba => ColorSpace.RGBA.num_components
  | SupportedColorSpace.Luma => ColorSpace.Luma.num_components
  | SupportedColorSpace.LumaA => ColorSpace.LumaA.num_components
  | SupportedColorSpace.Bgr => ColorSpace.BGR.num_components
  | SupportedColorSpace.Bgra => ColorSpace.BGRA.num_components

/-- Whether this color space has alpha (name spelling as in the source). -/
def SupportedColorSpace.suppports_alpha (s : SupportedColorSpace) : Bool :=
  match s with
  | SupportedColorSpace.Rgb => ColorSpace.RGB.has_alpha
  | SupportedColorSpace.Rgba => ColorSpace.RGBA.has_alpha
  | SupportedColorSpace.Luma => ColorSpace.Luma.has_alpha
  | SupportedColorSpace.LumaA => ColorSpace.LumaA.has_alpha
  | SupportedColorSpace.Bgr => ColorSpace.BGR.has_alpha
  | SupportedColorSpace.Bgra => ColorSpace.BGRA.has_alpha

/-- A single Rgba pixel; each component is a u8 value. -/
structure Rgba where
  /-- Red value. -/
  r : Nat
  /-- Green value. -/
  g : Nat
  /-- Blue value. -/
  b : Nat
  /-- Alpha value. -/
  a : Nat
deriving DecidableEq

/-- ZERO value of an Rgba pixel, completely transparent black. -/
def Rgba.ZERO : Rgba := { r := 0, g := 0, b := 0, a := 0 }

/-- An error that can occur during font generation (src/error.rs); payloads of
external error types are omitted. -/
inductive GenerationError where
  /-- The given image has an unsupported colorspace, carrying the tag. -/
  | UnsupportedColorspace : ColorSpace → GenerationError
  /-- An error occured while decoding a given png. -/
  | PngDecodingError : GenerationError
  /-- An error occured while writing to the output writer. -/
  | OutputWriterError : GenerationError
  /-- Another generic io error. -/
  | IoError : GenerationError
deriving DecidableEq

/-- Storage of decoded color depth values (RgbaColorIterInner); the 32 bit
float arm is outside the embedding (floating point). -/
inductive RgbaColorIterInner where
  /-- 8 bit color depth. -/
  | U8 : List Nat → RgbaColorIterInner
  /-- 16 bit color depth. -/
  | U16 : List Nat → RgbaColorIterInner
deriving DecidableEq

/-- Number of samples stored in the decoded buffer. -/
def RgbaColorIterInner.len (inner : RgbaColorIterInner) : Nat :=
  match inner with
  | RgbaColorIterInner.U8 v => v.length
  | RgbaColorIterInner.U16 v => v.length

/-- Calculate the size the complete char has in theory; this might be larger
than width times height because of alignment (calc_char_size). -/
def calc_char_size (font_mode : FontMode) (width height : Nat) : Nat :=
  match font_mode with
  | FontMode.Row => wrap (width * height)
  | FontMode.ByteColumn =>
    if height % 8 = 0 then wrap (width * height)
    else
      let height2 := wrap (8 - height % 8 + height)
      wrap (width * height2)

/-- Model of u8 try_from on a 16 bit value. -/
def u8_try_from (n : Nat) : Option Nat := if n ≤ 255 then some n else none

/-- Reduction of a 16 bit sample to 8 bits by integer division by 256; the
none arm of the conversion is the unreachable panic arm of the source. -/
def u16_sample_to_u8 (val : Nat) : Nat :=
  match u8_try_from (val / 256) with
  | some v => v
  | none => 0

/-- Loop body of fill_bytes: iterates the component index `i` while
`remaining` counts the components still to pull (initially num_components),
pulling one source sample per in-range index. -/
def fill_bytes_go : List Nat → Nat → Nat → List Nat → Option (List Nat)
  | _src, _i, 0, out => some out
  | src, i, remaining + 1, out =>
    if i < out.length then
      match src with
      | [] => none
      | v :: rest => fill_bytes_go rest (i + 1) remaining (out.set i v)
    else fill_bytes_go src (i + 1) remaining out

/-- Fill the out bytes with num_components samples; none when the source is
exhausted early (fill_bytes, with the boolean result folded into Option). -/
def fill_bytes (src : List Nat) (num_components : Nat) (out : List Nat) :
    Option (List Nat) :=
  fill_bytes_go src 0 num_components out

/-- Parse a single rgba value from 4 bytes and a color space (parse_rgba). -/
def parse_rgba (bytes : List Nat) (color_space : SupportedColorSpace) : Rgba :=
  match color_space with
  | SupportedColorSpace.Rgb =>
    { r := bytes.getD 0 0, g := bytes.getD 1 0, b := bytes.getD 2 0, a := 255 }
  | SupportedColorSpace.Rgba =>
    { r := bytes.getD 0 0, g := bytes.getD 1 0, b := bytes.getD 2 0
      a := bytes.getD 3 0 }
  | SupportedColorSpace.Luma =>
    { r := bytes.getD 0 0, g := bytes.getD 0 0, b := bytes.getD 0 0, a := 255 }
  | SupportedColorSpace.LumaA =>
    { r := bytes.getD 0 0, g := bytes.getD 0 0, b := bytes.getD 0 0
      a := bytes.getD 1 0 }
  | SupportedColorSpace.Bgr =>
    { b := bytes.getD 0 0, g := bytes.getD 1 0, r := bytes.getD 2 0, a := 255 }
  | SupportedColorSpace.Bgra =>
    { b := bytes.getD 0 0, g := bytes.getD 1 0, r := bytes.getD 2 0
      a := bytes.getD 3 0 }

/-- Get the nth rgba pixel in the image (RgbaColorIterInner get_nth_rgba). -/
def get_nth_rgba (inner : RgbaColorIterInner) (n : Nat)
    (color_space : SupportedColorSpace) : Option Rgba :=
  let byte_offset := saturating_mul n color_space.num_components
  let filled :=
    match inner with
    | RgbaColorIterInner.U8 v =>
      fill_bytes (v.drop byte_offset) color_space.num_components [0, 0, 0, 0]
    | RgbaColorIterInner.U16 v =>
      fill_bytes ((v.drop byte_offset).map u16_sample_to_u8)
        color_space.num_components [0, 0, 0, 0]
  filled.map (fun bytes => parse_rgba bytes color_space)

/-- An iterator over RGBA pixels of a PNG; the state of RgbaColorIter. -/
structure RgbaColorIter where
  /-- The inner storage of decoded values. -/
  inner : RgbaColorIterInner
  /-- The used color space. -/
  color_space : SupportedColorSpace
  /-- The mode in which the font should be generated. -/
  font_mode : FontMode
  /-- The images width. -/
  width : Nat
  /-- The images height. -/
  height : Nat
  /-- The size of the character, calculated from width and height. -/
  char_size : Nat
  /-- The current iteration index. -/
  idx : Nat
deriving DecidableEq

/-- The physical sample index computed by RgbaColorIter next for the current
logical index; none is the checked_div failure propagated by the source. -/
def get_phys_idx (font_mode : FontMode) (width idx : Nat) : Option Nat :=
  match font_mode with
  | FontMode.Row => some idx
  | FontMode.ByteColumn =>
    let block_px := saturating_mul width 8
    (checked_div idx block_px).map fun block_idx =>
      let block_start := wrap (block_idx * block_px)
      let column := wrapping_sub idx block_start / 8
      let row := wrapping_sub idx block_start % 8
      wrap (wrap (block_start + column) + wrap (row * width))

/-- One step of the RgbaColorIter iterator (Iterator next); the equality test
of idx against usize MAX is expressed as an at-least test, equivalent on the
usize domain. -/
def RgbaColorIter.next (it : RgbaColorIter) : Option (Rgba × RgbaColorIter) :=
  if U64 - 1 ≤ it.idx ∨ it.char_size ≤ it.idx then none
  else
    (get_phys_idx it.font_mode it.width it.idx).bind fun n =>
      if wrap (it.width * it.height) ≤ n then
        some (Rgba.ZERO, { it with idx := saturating_add it.idx 1 })
      else
        (get_nth_rgba it.inner n it.color_space).map fun rgba =>
          (rgba, { it with idx := saturating_add it.idx 1 })

/-- The middle of the u8 range (U8_HALF). -/
def U8_HALF : Nat := 255 / 2

/-- The thresholding expression of MonochromaticColorIter next. -/
def is_on (color_space : SupportedColorSpace) (rgba : Rgba) : Bool :=
  if color_space.suppports_alpha then decide (U8_HALF < rgba.a)
  else
    decide (U8_HALF < rgba.a) &&
      (decide (rgba.r < U8_HALF) || decide (rgba.g < U8_HALF) ||
        decide (rgba.b < U8_HALF))

/-- An iterator yielding monochromatic pixel values. -/
structure MonochromaticColorIter where
  /-- The wrapped rgba iterator. -/
  iter : RgbaColorIter
deriving DecidableEq

/-- One step of the MonochromaticColorIter iterator (Iterator next). -/
def MonochromaticColorIter.next (it : MonochromaticColorIter) :
    Option (Bool × MonochromaticColorIter) :=
  it.iter.next.map fun p => (is_on it.iter.color_space p.1, ⟨p.2⟩)

/-- Output of the external png decoder collaborator for one image: geometry,
color-space tag and the flat sample buffer. -/
structure DecodedImage where
  /-- The images width. -/
  width : Nat
  /-- The images height. -/
  height : Nat
  /-- The color space reported by the decoder. -/
  colorSpace : ColorSpace
  /-- The decoded flat sample buffer. -/
  samples : RgbaColorIterInner
deriving DecidableEq

/-- Create a new iterator over rgba pixels (RgbaColorIter new), starting from
the already-decoded collaborator output. -/
def RgbaColorIter.new (img : DecodedImage) (font_mode : FontMode) :
    Except GenerationError RgbaColorIter :=
  match SupportedColorSpace.new img.colorSpace with
  | none => Except.error (GenerationError.UnsupportedColorspace img.colorSpace)
  | some color_space =>
    Except.ok
      { inner := img.samples
        color_space := color_space
        font_mode := font_mode
        width := img.width
        height := img.height
        char_size := calc_char_size font_mode img.width img.height
        idx := 0 }

/-- Create a new monochromatic iterator (MonochromaticColorIter new). -/
def MonochromaticColorIter.new (img : DecodedImage) (font_mode : FontMode) :
    Except GenerationError MonochromaticColorIter :=
  match RgbaColorIter.new img font_mode with
  | Except.error e => Except.error e
  | Except.ok it => Except.ok ⟨it⟩

/-- Update of the accumulator byte for one incoming bit, as in the loop body
of generate_monochromatic. -/
def pack_bit (bit_flow : BitFlow) (pix : Bool) (cur_byte : Nat) : Nat :=
  match bit_flow with
  | BitFlow.Mtl => wrap8 (cur_byte * 2) ||| (if pix then 1 else 0)
  | BitFlow.Ltm => cur_byte / 2 ||| wrap8 ((if pix then 1 else 0) * 2 ^ 7)

/-- The bit packing loop of generate_monochromatic, applied to an explicit
finite list of booleans; flushed bytes are appended to acc. -/
def pack_fold (bit_flow : BitFlow) : List Bool → Nat → Nat → List Nat → List Nat
  | [], _cur_byte, _i, acc => acc
  | pix :: rest, cur_byte, i, acc =>
    let cb := pack_bit bit_flow pix cur_byte
    match checked_sub i 1 with
    | some v => pack_fold bit_flow rest cb v acc
    | none => pack_fold bit_flow rest 0 7 (acc ++ [cb])

/-- Pack a boolean sequence into bytes with the initial packer state of
generate_monochromatic (accumulator 0, counter 7). -/
def packBits (bit_flow : BitFlow) (bits : List Bool) : List Nat :=
  pack_fold bit_flow bits 0 7 []

/-- The driver loop of generate_monochromatic: drains the monochromatic
iterator, packing bits and appending each flushed byte to the sink. -/
def generate_loop (bit_flow : BitFlow) (it : MonochromaticColorIter)
    (cur_byte i : Nat) (acc : List Nat) : List Nat :=
  match h : it.next with
  | none => acc
  | some (pix, it2) =>
    let cb := pack_bit bit_flow pix cur_byte
    match checked_sub i 1 with
    | some v => generate_loop bit_flow it2 cb v acc
    | none => generate_loop bit_flow it2 0 7 (acc ++ [cb])
termination_by it.iter.char_size - it.iter.idx
decreasing_by
  all_goals
    have h2 := h
    simp only [MonochromaticColorIter.next] at h2
    rcases hr : RgbaColorIter.next it.iter with _ | ⟨rgba, itr⟩
    · rw [hr] at h2
      exact Option.noConfusion h2
    · rw [hr] at h2
      have h3 : (some (is_on it.iter.color_space rgba,
          (⟨itr⟩ : MonochromaticColorIter)) :
          Option (Bool × MonochromaticColorIter)) = some (pix, it2) := h2
      have hit2 : it2 = ⟨itr⟩ := by
        have h4 := h3
        simp only [Option.some.injEq, Prod.mk.injEq] at h4
        exact h4.2.symm
      simp only [RgbaColorIter.next] at hr
      by_cases hg : U64 - 1 ≤ it.iter.idx ∨ it.iter.char_size ≤ it.iter.idx
      · rw [if_pos hg] at hr
        exact Option.noConfusion hr
      · rw [if_neg hg] at hr
        rcases hp : get_phys_idx it.iter.font_mode it.iter.width it.iter.idx with
          _ | n
        · rw [hp] at hr
          exact Option.noConfusion hr
        · rw [hp] at hr
          have hr2 : (if wrap (it.iter.width * it.iter.height) ≤ n then
                some (Rgba.ZERO,
                  { it.iter with idx := saturating_add it.iter.idx 1 })
              else
                (get_nth_rgba it.iter.inner n it.iter.color_space).map fun rgba2 =>
                  (rgba2, { it.iter with idx := saturating_add it.iter.idx 1 })) =
              some (rgba, itr) := hr
          have hitr : itr = { it.iter with idx := saturating_add it.iter.idx 1 } := by
            by_cases hb : wrap (it.iter.width * it.iter.height) ≤ n
            · rw [if_pos hb] at hr2
              have h5 := hr2
              simp only [Option.some.injEq, Prod.mk.injEq] at h5
              exact h5.2.symm
            · rw [if_neg hb] at hr2
              rcases hgn : get_nth_rgba it.iter.inner n it.iter.color_space with
                _ | r2
              · rw [hgn] at hr2
                exact Option.noConfusion hr2
              · rw [hgn] at hr2
                have h5 : (some (r2,
                    { it.iter with idx := saturating_add it.iter.idx 1 }) :
                    Option (Rgba × RgbaColorIter)) = some (rgba, itr) := hr2
                simp only [Option.some.injEq, Prod.mk.injEq] at h5
                exact h5.2.symm
          rw [hit2, hitr]
          simp [saturating_add]
          omega

/-- Generate a single monochromatic font (generate_monochromatic); the second
component is the byte sequence written to the output sink. -/
def generate_monochromatic (img : DecodedImage) (font_mode : FontMode)
    (bit_flow : BitFlow) : Except GenerationError Unit × List Nat :=
  match MonochromaticColorIter.new img font_mode with
  | Except.error e => (Except.error e, [])
  | Except.ok it => (Except.ok (), generate_loop bit_flow it 0 7 [])

/-! ## Helper lemmas -/

/-- wrap is the identity below the usize bound. -/
theorem wrap_eq_of_lt {n : Nat} (h : n < U64) : wrap n = n := Nat.mod_eq_of_lt h

/-- checked_sub of one from a positive counter succeeds. -/
theorem checked_sub_one_of_pos {i : Nat} (h : 1 ≤ i) :
    checked_sub i 1 = some (i - 1) := by
  simp [checked_sub, h]

/-- checked_sub of one from zero signals none. -/
theorem checked_sub_one_zero : checked_sub 0 1 = none := by
  simp [checked_sub]

/-- Flushed bytes already in the sink are preserved by further packing. -/
theorem pack_fold_acc_cons (bit_flow : BitFlow) (bits : List Bool) :
    ∀ (cur_byte i x : Nat) (acc : List Nat),
    pack_fold bit_flow bits cur_byte i (x :: acc) =
      x :: pack_fold bit_flow bits cur_byte i acc := by
  induction bits with
  | nil => intro cur_byte i x acc; rfl
  | cons pix rest ih =>
    intro cur_byte i x acc
    rcases Nat.eq_zero_or_pos i with h0 | h1
    · subst h0
      simp only [pack_fold, checked_sub_one_zero, List.cons_append]
      exact ih _ _ _ _
    · simp only [pack_fold, checked_sub_one_of_pos h1]
      exact ih _ _ _ _

/-- The number of bytes flushed by the packing loop: one per full group of
8 bits, counting the bits still owed to the current byte. -/
theorem pack_fold_length (bit_flow : BitFlow) (bits : List Bool) :
    ∀ (cur_byte i : Nat) (acc : List Nat), i ≤ 7 →
    (pack_fold bit_flow bits cur_byte i acc).length =
      acc.length + (bits.length + (7 - i)) / 8 := by
  induction bits with
  | nil =>
    intro cur_byte i acc hi
    simp only [pack_fold, List.length_nil]
    omega
  | cons pix rest ih =>
    intro cur_byte i acc hi
    rcases Nat.eq_zero_or_pos i with h0 | h1
    · subst h0
      simp only [pack_fold, checked_sub_one_zero]
      rw [ih _ 7 _ (by omega)]
      simp only [List.length_append, List.length_cons, List.length_nil]
      omega
    · simp only [pack_fold, checked_sub_one_of_pos h1]
      rw [ih _ (i - 1) _ (by omega)]
      simp only [List.length_cons]
      omega

/-! ## Claim theorems -/

/-- C10: in the 16 bit sample-precision reduction, division by 256 always
yields a value representable as u8, so the u8 conversion succeeds and the
declared-unreachable arm can never fire. -/
theorem C10_u16_reduction_total : ∀ val : Nat, val < 2 ^ 16 →
    u8_try_from (val / 256) = some (val / 256) ∧
      u16_sample_to_u8 val = val / 256 := by
  intro val h
  have h2 : val / 256 ≤ 255 := by omega
  refine ⟨by simp [u8_try_from, h2], ?_⟩
  simp [u16_sample_to_u8, u8_try_from, h2]

/-- Witness for C10 at the largest 16 bit sample. -/
theorem C10_witness :
    u8_try_from (65535 / 256) = some (65535 / 256) ∧
      u16_sample_to_u8 65535 = 65535 / 256 :=
  C10_u16_reduction_total 65535 (by decide)

/-- C6: the char size is width times height in Row mode and for heights
divisible by 8 in ByteColumn mode, and width times the height rounded up to
the next multiple of 8 otherwise; arithmetic is usize arithmetic. -/
theorem C6_char_size_formulas :
    (∀ w h : Nat, calc_char_size FontMode.Row w h = w * h % U64)
    ∧ (∀ w h : Nat, h % 8 = 0 →
        calc_char_size FontMode.ByteColumn w h = w * h % U64)
    ∧ (∀ w h : Nat, h % 8 ≠ 0 →
        calc_char_size FontMode.ByteColumn w h = w * (h + (8 - h % 8)) % U64)
    ∧ calc_char_size FontMode.Row 10 16 = 160
    ∧ calc_char_size FontMode.Row 10 20 = 200
    ∧ calc_char_size FontMode.ByteColumn 10 16 = 160
    ∧ calc_char_size FontMode.ByteColumn 10 20 = 240 := by
  refine ⟨fun w h => rfl, fun w h hh => by simp [calc_char_size, hh, wrap],
    fun w h hh => ?_, by decide, by decide, by decide, by decide⟩
  simp only [calc_char_size, wrap]
  rw [if_neg hh]
  have hx : 8 - h % 8 + h = h + (8 - h % 8) := Nat.add_comm _ _
  rw [hx, Nat.mul_mod, Nat.mod_mod_of_dvd _ dvd_rfl, ← Nat.mul_mod]

/-- Witness for C6 at a height not divisible by 8. -/
theorem C6_witness :
    calc_char_size FontMode.ByteColumn 3 5 = 3 * (5 + (8 - 5 % 8)) % U64 :=
  C6_char_size_formulas.2.2.1 3 5 (by decide)

/-- C7 as stated fails under usize wrapping: a huge width makes the padded
product wrap to zero, below width times height. -/
theorem C7_counterexample :
    ¬ (2 ^ 63 * 1 % U64 ≤ calc_char_size FontMode.ByteColumn (2 ^ 63) 1) := by
  decide

/-- C7 amended: when the padded char size computation does not overflow the
usize domain, the char size is at least width times height. -/
theorem C7_charsize_ge_amended : ∀ (font_mode : FontMode) (w h : Nat),
    w * (h + (8 - h % 8)) < U64 → w * h ≤ calc_char_size font_mode w h := by
  intro fm w h hov
  have hle : w * h ≤ w * (h + (8 - h % 8)) := Nat.mul_le_mul (le_refl w) (by omega)
  have hwh : w * h < U64 := lt_of_le_of_lt hle hov
  cases fm with
  | Row => simp [calc_char_size, wrap, Nat.mod_eq_of_lt hwh]
  | ByteColumn =>
    by_cases hh : h % 8 = 0
    · simp [calc_char_size, hh, wrap, Nat.mod_eq_of_lt hwh]
    · simp only [calc_char_size, wrap]
      rw [if_neg hh]
      rcases Nat.eq_zero_or_pos w with hw | hw
      · subst hw; simp
      · have hcomm : 8 - h % 8 + h = h + (8 - h % 8) := Nat.add_comm _ _
        have hx : 8 - h % 8 + h < U64 := by
          have hone : h + (8 - h % 8) ≤ w * (h + (8 - h % 8)) :=
            Nat.le_mul_of_pos_left _ hw
          omega
        rw [Nat.mod_eq_of_lt hx, hcomm, Nat.mod_eq_of_lt hov]
        exact hle

/-- Witness for C7 amended at a 10 by 20 image in ByteColumn mode. -/
theorem C7_witness : 10 * 20 ≤ calc_char_size FontMode.ByteColumn 10 20 :=
  C7_charsize_ge_amended FontMode.ByteColumn 10 20 (by decide)

/-- C3: the packer emits exactly one byte per full group of 8 consumed bits
and silently discards a trailing partial group; 12 booleans give 1 byte. -/
theorem C3_packer_length :
    (∀ (bit_flow : BitFlow) (bits : List Bool),
      (packBits bit_flow bits).length = bits.length / 8)
    ∧ (packBits BitFlow.Mtl (List.replicate 12 true)).length = 1 := by
  refine ⟨fun bf bits => ?_, by decide⟩
  have h := pack_fold_length bf bits 0 7 [] (by omega)
  simpa [packBits] using h

/-- C2: under Mtl flow the earliest-seen bit of every completed byte lands in
the most significant position, under Ltm flow in the least significant
position; the 8-bit sequence 1,0,1,0,1,0,1,0 packs to 0b10101010 and
0b01010101 respectively. -/
theorem C2_bit_flow_packing :
    (∀ b0 b1 b2 b3 b4 b5 b6 b7 : Bool, ∀ rest : List Bool,
      packBits BitFlow.Mtl (b0 :: b1 :: b2 :: b3 :: b4 :: b5 :: b6 :: b7 :: rest) =
        (128 * b0.toNat + 64 * b1.toNat + 32 * b2.toNat + 16 * b3.toNat +
          8 * b4.toNat + 4 * b5.toNat + 2 * b6.toNat + b7.toNat) ::
          packBits BitFlow.Mtl rest)
    ∧ (∀ b0 b1 b2 b3 b4 b5 b6 b7 : Bool, ∀ rest : List Bool,
      packBits BitFlow.Ltm (b0 :: b1 :: b2 :: b3 :: b4 :: b5 :: b6 :: b7 :: rest) =
        (b0.toNat + 2 * b1.toNat + 4 * b2.toNat + 8 * b3.toNat + 16 * b4.toNat +
          32 * b5.toNat + 64 * b6.toNat + 128 * b7.toNat) ::
          packBits BitFlow.Ltm rest)
    ∧ packBits BitFlow.Mtl [true, false, true, false, true, false, true, false] =
        [0b10101010]
    ∧ packBits BitFlow.Ltm [true, false, true, false, true, false, true, false] =
        [0b01010101] := by
  refine ⟨?_, ?_, by decide, by decide⟩ <;>
  · intro b0 b1 b2 b3 b4 b5 b6 b7 rest
    cases b0 <;> cases b1 <;> cases b2 <;> cases b3 <;> cases b4 <;> cases b5 <;>
      cases b6 <;> cases b7 <;>
      · simp only [packBits]
        rw [← pack_fold_acc_cons]
        rfl

/-- C1 as stated fails on the code in two places.  First, the claim says the
RGBA pixel (255,255,255,255) is off, but an alpha-carrying space tests only
alpha, and 255 is above 127, so the bit is on.  Second, for an alpha-less
space the source tests the color channels with strictly-less-than 127, not
128: the canonical color (127,127,127,255), produced from RGB samples
127,127,127, satisfies the claim formula (alpha above 127 and every channel
below 128), yet the emitted bit is off. -/
theorem C1_counterexample :
    is_on SupportedColorSpace.Rgba { r := 255, g := 255, b := 255, a := 255 } =
        true
    ∧ get_nth_rgba (RgbaColorIterInner.U8 [127, 127, 127]) 0
        SupportedColorSpace.Rgb =
      some { r := 127, g := 127, b := 127, a := 255 }
    ∧ SupportedColorSpace.Rgb.suppports_alpha = false
    ∧ ((255 : Nat) > 127 ∧ (127 : Nat) < 128)
    ∧ is_on SupportedColorSpace.Rgb { r := 127, g := 127, b := 127, a := 255 } =
        false := by
  refine ⟨by decide, by decide, by decide, by decide, by decide⟩

/-- C1 amended: the emitted bit of the monochromatic iterator is computed from
the canonical color as: with alpha, on iff alpha above 127; without alpha, on
iff alpha above 127 and some color channel strictly below 127 (not 128).  The
concrete examples of the claim hold with one fix: the RGBA pixel
(255,255,255,255) is on, not off, since only alpha is consulted. -/
theorem C1_threshold_amended :
    (∀ (it : MonochromaticColorIter) (pix : Bool) (it2 : MonochromaticColorIter),
      it.next = some (pix, it2) →
      ∃ rgba it3, RgbaColorIter.next it.iter = some (rgba, it3) ∧
        pix = (if it.iter.color_space.suppports_alpha then decide (127 < rgba.a)
          else decide (127 < rgba.a) &&
            (decide (rgba.r < 127) || decide (rgba.g < 127) ||
              decide (rgba.b < 127))))
    ∧ is_on SupportedColorSpace.Rgba { r := 0, g := 0, b := 0, a := 255 } = true
    ∧ is_on SupportedColorSpace.Rgba { r := 255, g := 255, b := 255, a := 255 } =
        true
    ∧ is_on SupportedColorSpace.Rgba { r := 0, g := 0, b := 0, a := 0 } = false
    ∧ is_on SupportedColorSpace.Rgb { r := 10, g := 10, b := 10, a := 255 } = true
    ∧ is_on SupportedColorSpace.Rgb { r := 250, g := 250, b := 250, a := 255 } =
        false := by
  refine ⟨?_, by decide, by decide, by decide, by decide, by decide⟩
  intro it pix it2 h
  simp only [MonochromaticColorIter.next] at h
  rcases hr : RgbaColorIter.next it.iter with _ | ⟨rgba, it3⟩
  · rw [hr] at h; exact Option.noConfusion h
  · rw [hr, Option.map_some'] at h
    refine ⟨rgba, it3, rfl, ?_⟩
    have h2 := h
    simp only [Option.some.injEq, Prod.mk.injEq] at h2
    rw [← h2.1]
    simp [is_on, U8_HALF]

/-- Witness for C1 amended: a 1 by 1 opaque black RGBA image yields the bit
on, matching the amended formula. -/
theorem C1_witness :
    ∃ rgba it3,
      RgbaColorIter.next
        { inner := RgbaColorIterInner.U8 [0, 0, 0, 255]
          color_space := SupportedColorSpace.Rgba
          font_mode := FontMode.Row
          width := 1, height := 1, char_size := 1, idx := 0 } =
        some (rgba, it3) ∧
      true = (if SupportedColorSpace.Rgba.suppports_alpha then
          decide (127 < rgba.a)
        else decide (127 < rgba.a) &&
          (decide (rgba.r < 127) || decide (rgba.g < 127) ||
            decide (rgba.b < 127))) :=
  C1_threshold_amended.1
    ⟨{ inner := RgbaColorIterInner.U8 [0, 0, 0, 255]
       color_space := SupportedColorSpace.Rgba
       font_mode := FontMode.Row
       width := 1, height := 1, char_size := 1, idx := 0 }⟩ true
    ⟨{ inner := RgbaColorIterInner.U8 [0, 0, 0, 255]
       color_space := SupportedColorSpace.Rgba
       font_mode := FontMode.Row
       width := 1, height := 1, char_size := 1, idx := 1 }⟩ (by decide)

/-- C8: an unsupported color-space tag makes generation fail immediately with
an UnsupportedColorspace error carrying the tag, before any pixel processing,
with zero bytes written to the sink. -/
theorem C8_unsupported_colorspace :
    ∀ (img : DecodedImage) (font_mode : FontMode) (bit_flow : BitFlow),
      SupportedColorSpace.new img.colorSpace = none →
      generate_monochromatic img font_mode bit_flow =
        (Except.error (GenerationError.UnsupportedColorspace img.colorSpace),
          []) := by
  intro img fm bf h
  simp [generate_monochromatic, MonochromaticColorIter.new, RgbaColorIter.new, h]

/-- Witness for C8 at an image reporting an unknown color space. -/
theorem C8_witness :
    generate_monochromatic
      { width := 2, height := 2, colorSpace := ColorSpace.Unknown
        samples := RgbaColorIterInner.U8 [] } FontMode.Row BitFlow.Mtl =
      (Except.error (GenerationError.UnsupportedColorspace ColorSpace.Unknown),
        []) :=
  C8_unsupported_colorspace _ _ _ (by decide)

/-- C5: when the computed physical index falls into the padding region (at or
beyond width times height), the scanner yields the fully transparent black
virtual pixel; the result is the same for every sample buffer, so the buffer
is never read. -/
theorem C5_padding_virtual_pixel :
    ∀ (buf : RgbaColorIterInner) (cs : SupportedColorSpace) (fm : FontMode)
      (w h cz idx n : Nat),
      ¬ (U64 - 1 ≤ idx) → idx < cz →
      get_phys_idx fm w idx = some n →
      wrap (w * h) ≤ n →
      RgbaColorIter.next
        { inner := buf, color_space := cs, font_mode := fm, width := w,
          height := h, char_size := cz, idx := idx } =
        some (Rgba.ZERO,
          { inner := buf, color_space := cs, font_mode := fm, width := w,
            height := h, char_size := cz, idx := saturating_add idx 1 }) := by
  intro buf cs fm w h cz idx n h1 h2 hp hn
  simp only [RgbaColorIter.next]
  rw [if_neg (by omega)]
  rw [hp]
  simp only [Option.some_bind']
  rw [if_pos hn]

/-- Witness for C5: a 1 by 3 image in ByteColumn mode, logical index 3, whose
physical index 3 lies in the padding region. -/
theorem C5_witness :
    RgbaColorIter.next
      { inner := RgbaColorIterInner.U8 [1, 2, 3]
        color_space := SupportedColorSpace.Rgb, font_mode := FontMode.ByteColumn
        width := 1, height := 3, char_size := 8, idx := 3 } =
      some (Rgba.ZERO,
        { inner := RgbaColorIterInner.U8 [1, 2, 3]
          color_space := SupportedColorSpace.Rgb
          font_mode := FontMode.ByteColumn
          width := 1, height := 3, char_size := 8, idx := saturating_add 3 1 }) :=
  C5_padding_virtual_pixel (RgbaColorIterInner.U8 [1, 2, 3])
    SupportedColorSpace.Rgb FontMode.ByteColumn 1 3 8 3 3 (by decide) (by decide)
    (by decide) (by decide)

/-- C4: for logical indices inside the char, Row order maps a logical index to
itself, and ByteColumn order maps it to blockStart + column + row times width,
with blockStart, column and row given by the division formulas of the claim
(stated under a no-overflow bound on the padded char size). -/
theorem C4_scan_order :
    (∀ w h n : Nat, w * h < U64 → n < calc_char_size FontMode.Row w h →
      get_phys_idx FontMode.Row w n = some n)
    ∧ (∀ w h n : Nat, w * (h + (8 - h % 8)) < U64 →
      n < calc_char_size FontMode.ByteColumn w h →
      get_phys_idx FontMode.ByteColumn w n =
        some (n / (w * 8) * (w * 8) + (n - n / (w * 8) * (w * 8)) / 8 +
          (n - n / (w * 8) * (w * 8)) % 8 * w)) := by
  constructor
  · intro w h n _ _
    rfl
  · intro w h n hov hlt
    have hw : 0 < w := by
      rcases Nat.eq_zero_or_pos w with h0 | h1
      · exfalso
        subst h0
        by_cases hh : h % 8 = 0 <;> simp [calc_char_size, hh, wrap] at hlt
      · exact h1
    obtain ⟨H, hH8, hHpos, hcz, hwHov⟩ :
        ∃ H, H % 8 = 0 ∧ 0 < H ∧
          calc_char_size FontMode.ByteColumn w h = w * H ∧ w * H < U64 := by
      by_cases hh : h % 8 = 0
      · have hwh : w * h < U64 :=
          lt_of_le_of_lt (Nat.mul_le_mul (le_refl w) (by omega)) hov
        have hhpos : 0 < h := by
          rcases Nat.eq_zero_or_pos h with h0 | h1
          · exfalso; subst h0; simp [calc_char_size, wrap] at hlt
          · exact h1
        exact ⟨h, hh, hhpos, by simp [calc_char_size, hh, wrap,
          Nat.mod_eq_of_lt hwh], hwh⟩
      · have hx : h + (8 - h % 8) ≤ w * (h + (8 - h % 8)) :=
          Nat.le_mul_of_pos_left _ hw
        have hxlt : 8 - h % 8 + h < U64 := by omega
        refine ⟨h + (8 - h % 8), by omega, by omega, ?_, hov⟩
        simp only [calc_char_size, wrap]
        rw [if_neg hh, Nat.mod_eq_of_lt hxlt,
          show 8 - h % 8 + h = h + (8 - h % 8) from Nat.add_comm _ _]
        exact Nat.mod_eq_of_lt hov
    rw [hcz] at hlt
    have h8H : 8 ≤ H := by omega
    have hbplt : w * 8 < U64 :=
      lt_of_le_of_lt (Nat.mul_le_mul (le_refl w) h8H) hwHov
    have hsat : saturating_mul w 8 = w * 8 := by
      simp only [saturating_mul]
      omega
    have hcd : checked_div n (w * 8) = some (n / (w * 8)) := by
      simp only [checked_div]
      rw [if_neg (by omega)]
    simp only [get_phys_idx, hsat, hcd, Option.map_some']
    set bs := n / (w * 8) * (w * 8) with hbs_def
    have hbs_le : bs ≤ n := Nat.div_mul_le_self n (w * 8)
    have hn_lt_U : n < U64 := lt_trans hlt hwHov
    have hbs_wrap : wrap bs = bs := wrap_eq_of_lt (by omega)
    have hws : wrapping_sub n bs = n - bs := by
      simp only [wrapping_sub]
      rw [show n + U64 - bs = (n - bs) + U64 from by omega, Nat.add_mod_right]
      exact Nat.mod_eq_of_lt (by omega)
    have hm : n - bs = n % (w * 8) := by
      have hdm := Nat.div_add_mod n (w * 8)
      have hcomm : w * 8 * (n / (w * 8)) = n / (w * 8) * (w * 8) :=
        Nat.mul_comm _ _
      omega
    have hm_lt : n - bs < w * 8 := by
      rw [hm]
      exact Nat.mod_lt _ (by omega)
    have hroww : (n - bs) % 8 * w ≤ 7 * w :=
      Nat.mul_le_mul (by omega) (le_refl w)
    have hblock : bs + w * 8 ≤ w * H := by
      have hHdiv : w * H = w * 8 * (H / 8) := by
        have h1 : 8 * (H / 8) = H := by omega
        calc w * H = w * (8 * (H / 8)) := by rw [h1]
        _ = w * 8 * (H / 8) := by ring
      have hdivlt : n / (w * 8) < H / 8 := by
        rw [Nat.div_lt_iff_lt_mul (by omega : 0 < w * 8)]
        calc n < w * H := hlt
        _ = H / 8 * (w * 8) := by rw [hHdiv]; ring
      calc bs + w * 8 = (n / (w * 8) + 1) * (w * 8) := by rw [hbs_def]; ring
      _ ≤ H / 8 * (w * 8) := Nat.mul_le_mul_right _ (by omega)
      _ = w * H := by rw [hHdiv]; ring
    have hphys_lt : bs + (n - bs) / 8 + (n - bs) % 8 * w < U64 := by omega
    rw [hbs_wrap, hws,
      wrap_eq_of_lt (show bs + (n - bs) / 8 < U64 by omega),
      wrap_eq_of_lt (show (n - bs) % 8 * w < U64 by omega),
      wrap_eq_of_lt hphys_lt]

/-- Witness for C4: a 10 by 20 ByteColumn image at logical index 25, and a
10 by 20 Row image at logical index 13. -/
theorem C4_witness :
    get_phys_idx FontMode.Row 10 13 = some 13
    ∧ get_phys_idx FontMode.ByteColumn 10 25 =
      some (25 / (10 * 8) * (10 * 8) + (25 - 25 / (10 * 8) * (10 * 8)) / 8 +
        (25 - 25 / (10 * 8) * (10 * 8)) % 8 * 10) :=
  ⟨C4_scan_order.1 10 20 13 (by decide) (by decide),
    C4_scan_order.2 10 20 25 (by decide) (by decide)⟩

/-- A source shorter than the number of still-needed in-range components
makes the fill loop signal none. -/
theorem fill_bytes_go_short :
    ∀ (remaining : Nat) (src out : List Nat) (i : Nat),
      out.length = 4 → i + remaining ≤ 4 → src.length < remaining →
      fill_bytes_go src i remaining out = none := by
  intro remaining
  induction remaining with
  | zero =>
    intro src out i hout hle hsrc
    omega
  | succ k ih =>
    intro src out i hout hle hsrc
    have hi : i < out.length := by omega
    simp only [fill_bytes_go]
    rw [if_pos hi]
    cases src with
    | nil => rfl
    | cons v rest =>
      exact ih rest (out.set i v) (i + 1) (by simp [hout]) (by omega)
        (by simp at hsrc; omega)

/-- fill_bytes fails on a source shorter than the component count. -/
theorem fill_bytes_short (src : List Nat) (nc : Nat) (hnc : nc ≤ 4)
    (h : src.length < nc) : fill_bytes src nc [0, 0, 0, 0] = none :=
  fill_bytes_go_short nc src [0, 0, 0, 0] 0 (by decide) (by omega) h

/-- Every supported color space has between 1 and 4 components. -/
theorem num_components_bounds (s : SupportedColorSpace) :
    1 ≤ s.num_components ∧ s.num_components ≤ 4 := by
  cases s <;> exact ⟨by decide, by decide⟩

/-- C9: a truncated sample buffer makes the normalizer signal none rather
than an error, which ends the pixel sequence; generation still returns
success whenever the color space is supported. -/
theorem C9_truncation_graceful :
    (∀ (img : DecodedImage) (fm : FontMode) (bf : BitFlow)
      (cs : SupportedColorSpace),
      SupportedColorSpace.new img.colorSpace = some cs →
      (generate_monochromatic img fm bf).1 = Except.ok ())
    ∧ (∀ (it : MonochromaticColorIter) (n : Nat),
      ¬ (U64 - 1 ≤ it.iter.idx) → it.iter.idx < it.iter.char_size →
      get_phys_idx it.iter.font_mode it.iter.width it.iter.idx = some n →
      ¬ (wrap (it.iter.width * it.iter.height) ≤ n) →
      it.iter.inner.len <
        saturating_mul n it.iter.color_space.num_components +
          it.iter.color_space.num_components →
      get_nth_rgba it.iter.inner n it.iter.color_space = none ∧
        it.next = none) := by
  constructor
  · intro img fm bf cs h
    simp [generate_monochromatic, MonochromaticColorIter.new,
      RgbaColorIter.new, h]
  · intro it n h1 h2 hp hb hlen
    have hcs := num_components_bounds it.iter.color_space
    have hget : get_nth_rgba it.iter.inner n it.iter.color_space = none := by
      rcases hin : it.iter.inner with v | v
      · rw [hin] at hlen
        have hvl : v.length <
            saturating_mul n it.iter.color_space.num_components +
              it.iter.color_space.num_components := hlen
        have hdl : (v.drop
            (saturating_mul n it.iter.color_space.num_components)).length <
            it.iter.color_space.num_components := by
          rw [List.length_drop]
          omega
        have hf := fill_bytes_short _ _ hcs.2 hdl
        simp only [get_nth_rgba]
        rw [hf]
        rfl
      · rw [hin] at hlen
        have hvl : v.length <
            saturating_mul n it.iter.color_space.num_components +
              it.iter.color_space.num_components := hlen
        have hdl : ((v.drop
            (saturating_mul n it.iter.color_space.num_components)).map
              u16_sample_to_u8).length <
            it.iter.color_space.num_components := by
          rw [List.length_map, List.length_drop]
          omega
        have hf := fill_bytes_short _ _ hcs.2 hdl
        simp only [get_nth_rgba]
        rw [hf]
        rfl
    refine ⟨hget, ?_⟩
    have hnext : RgbaColorIter.next it.iter = none := by
      simp only [RgbaColorIter.next]
      rw [if_neg (by omega), hp]
      simp only [Option.some_bind']
      rw [if_neg hb, hget]
      rfl
    simp only [MonochromaticColorIter.next, hnext]
    rfl

/-- Witness for C9: a 1 by 1 RGB image whose buffer holds a single sample
instead of three; the normalizer signals none and generation returns ok. -/
theorem C9_witness :
    (generate_monochromatic
      { width := 1, height := 1, colorSpace := ColorSpace.RGB
        samples := RgbaColorIterInner.U8 [5] } FontMode.Row BitFlow.Mtl).1 =
      Except.ok ()
    ∧ (get_nth_rgba (RgbaColorIterInner.U8 [5]) 0 SupportedColorSpace.Rgb =
        none ∧
      MonochromaticColorIter.next
        ⟨{ inner := RgbaColorIterInner.U8 [5]
           color_space := SupportedColorSpace.Rgb, font_mode := FontMode.Row
           width := 1, height := 1, char_size := 1, idx := 0 }⟩ = none) :=
  ⟨C9_truncation_graceful.1
      { width := 1, height := 1, colorSpace := ColorSpace.RGB
        samples := RgbaColorIterInner.U8 [5] } FontMode.Row BitFlow.Mtl
      SupportedColorSpace.Rgb rfl,
    C9_truncation_graceful.2
      ⟨{ inner := RgbaColorIterInner.U8 [5]
         color_space := SupportedColorSpace.Rgb, font_mode := FontMode.Row
         width := 1, height := 1, char_size := 1, idx := 0 }⟩ 0 (by decide)
      (by decide) (by decide) (by decide) (by decide)⟩
